import Mathlib

/-!
Verification of `aten/src/ATen/native/quantized/cpu/LinearUnpackImpl.cpp`:
the `unpack()` implementations of the four packed-linear-weight backends
(FBGEMM int8, QNNPACK int8, FBGEMM fp16, oneDNN).  The C++ is shallowly
embedded: each backend class becomes a structure holding the fields
`unpack()` reads, and each `unpack()` method becomes a state-passing
function returning the result together with the (unchanged) post state.
Machine int8 arithmetic is modelled on `Int` with explicit wraparound;
float and double scalars carry no arithmetic in this file (they are only
copied or exactly widened), so they are represented by their rational
values.
-/

/-- Quantization scheme tags, mirroring the members of `c10::QScheme`
that can reach this file. -/
inductive QScheme where
  | perTensorAffine
  | perChannelAffine
  | perTensorSymmetric
  | perChannelSymmetric
  | perChannelAffineFloatQParams
deriving DecidableEq, Repr

/-- Quantizer metadata attached to a quantized dense tensor: either one
(scale, zero point) pair, or per-channel parallel arrays plus an axis. -/
inductive Quantizer where
  | perTensor (scale : ℚ) (zeroPoint : Int)
  | perChannel (scales : List ℚ) (zeroPoints : List Int) (axis : Nat)
deriving DecidableEq, Repr

/-- Modelled from the spec: the scheme tag reported by
`Tensor::qscheme()` for a tensor built by the quantized-tensor
constructors (`_empty_affine_quantized`, `_make_per_tensor_quantized_tensor`
tag per-tensor affine; `_empty_per_channel_affine_quantized` tags
per-channel affine).  The constructors themselves live in the tensor
runtime, outside `src/`. -/
def Quantizer.qscheme : Quantizer → QScheme
  | .perTensor _ _ => .perTensorAffine
  | .perChannel _ _ _ => .perChannelAffine

/-- Dense quantized int8 tensor: recorded sizes, row-major element data
(signed 8-bit values on `Int`), and quantizer metadata. -/
structure QTensor where
  sizes : List Nat
  data : List Int
  quant : Quantizer
deriving DecidableEq, Repr

/-- Floating dtypes reaching this file. -/
inductive FDtype where
  | f16
  | f32
deriving DecidableEq, Repr

/-- Dense floating tensor (backend C): recorded sizes, row-major data,
dtype tag.  Values are represented by rationals: the only float
operation in the file is the exact float16-to-float32 widen, identity
on the represented value. -/
structure FTensor where
  sizes : List Nat
  data : List ℚ
  dtype : FDtype
deriving DecidableEq, Repr

/-- Row-major entry of a floating tensor at position (i, j), where the
row length is the second recorded size. -/
def FTensor.entry (t : FTensor) (i j : Nat) : ℚ :=
  t.data.getD (i * t.sizes.getD 1 0 + j) 0

/-- Optional bias vector (float values). -/
abbrev Bias := Option (List ℚ)

/-- Errors `unpack()` can surface to the caller. -/
inductive UnpackError where
  | undefinedTensorAccess
  | torchCheckFailed
deriving DecidableEq, Repr

/-! ## Backend A: `PackedLinearWeight` (FBGEMM int8) -/

/-- State of `PackedLinearWeight` as read by its `unpack()`:
the packed matrix handle `w` (its recorded dimensions and, modelled from
the spec, its logical row-major int8 content, indexed output-channel
first), the scale and zero-point arrays, the scheme tag and the bias. -/
structure PackedLinearWeight where
  numRows : Nat
  numCols : Nat
  content : Nat → Nat → Int
  w_scale : List ℚ
  w_zp : List Int
  q_scheme : QScheme
  bias_ : Bias

/-- Modelled from the spec: `packB->unpack(ptr)` (FBGEMM kernel-library
code, not under `src/`) scatters the blocked bytes into the dense buffer
in row-major [N, K] order, regardless of internal block layout. -/
def fbgemmDecode (content : Nat → Nat → Int) (N K : Nat) : List Int :=
  ((List.range N).map (fun n => (List.range K).map (content n))).flatten

/-- Translation of `PackedLinearWeight::unpack()` (LinearUnpackImpl.cpp
lines 26-59).  `N = packB->numCols()`, `K = packB->numRows()`;
`weight_origin` is default-constructed (undefined) and only assigned in
the two recognized scheme branches; `data_ptr` on an undefined tensor
raises a fatal error.  No field of `self` is written, so the post state
is `self`. -/
def PackedLinearWeight.unpack (self : PackedLinearWeight) :
    Except UnpackError (QTensor × Bias) × PackedLinearWeight :=
  let N := self.numCols
  let K := self.numRows
  let weight_origin : Option Quantizer :=
    if self.q_scheme = QScheme.perTensorAffine then
      some (Quantizer.perTensor (self.w_scale.getD 0 0) (self.w_zp.getD 0 0))
    else if self.q_scheme = QScheme.perChannelAffine then
      some (Quantizer.perChannel self.w_scale self.w_zp 0)
    else
      none
  match weight_origin with
  | none => (Except.error UnpackError.undefinedTensorAccess, self)
  | some quant =>
      (Except.ok (⟨[N, K], fbgemmDecode self.content N K, quant⟩, self.bias_), self)

/-! ## Backend B: `PackedLinearWeightsQnnp` (QNNPACK int8) -/

/-- Reinterpretation of one stored byte as a signed 8-bit value
(the `reinterpret_cast` from the unsigned bytes the decode routine
writes to the `int8_t` buffer). -/
def int8OfByte (v : Nat) : Int :=
  if v % 256 < 128 then (v % 256 : Int) else (v % 256 : Int) - 256

/-- Wraparound of an integer into the signed 8-bit range [-128, 127]
(two's-complement arithmetic of the int8 element type). -/
def int8Wrap (x : Int) : Int :=
  (x + 128) % 256 - 128

/-- State of `PackedLinearWeightsQnnp` as read by its `unpack()`:
the optionally retained original dense tensor, the bias, the recorded
`weight_sizes`, the scale tensor data and zero-point byte vector, and
(modelled from the spec) the raw bytes the kernel-library decode
routine writes, indexed by flat position. -/
structure PackedLinearWeightsQnnp where
  orig_weight : Option QTensor
  bias_ : Bias
  weight_sizes : List Nat
  w_scales : List ℚ
  w_zero_points : List Nat
  packedByte : Nat → Nat

/-- Modelled from the spec: `w->unpackWeights(zp, ptr)` (QNNPACK
kernel-library code, not under `src/`) writes one raw byte per element
of the `weight_sizes`-shaped buffer; the packing convention biases
signed values into the unsigned byte range. -/
def qnnpackDecode (packedByte : Nat → Nat) (numel : Nat) : List Nat :=
  (List.range numel).map packedByte

/-- Translation of `PackedLinearWeightsQnnp::unpack()`
(LinearUnpackImpl.cpp lines 63-84).  Cached path: `orig_weight` defined,
return it with the bias.  Reconstructed path: allocate a `weight_sizes`
int8 tensor, let the decode routine fill it, subtract 128 elementwise in
int8 arithmetic (`sub_(128)`), wrap the buffer with the first scale and
first zero point as a per-tensor quantized tensor
(`_make_per_tensor_quantized_tensor`), and `TORCH_CHECK` that its scheme
is per-tensor affine.  No field of `self` is written. -/
def PackedLinearWeightsQnnp.unpack (self : PackedLinearWeightsQnnp) :
    Except UnpackError (QTensor × Bias) × PackedLinearWeightsQnnp :=
  match self.orig_weight with
  | some t => (Except.ok (t, self.bias_), self)
  | none =>
      let numel := self.weight_sizes.prod
      let raw : List Int := (qnnpackDecode self.packedByte numel).map int8OfByte
      let corrected : List Int := raw.map (fun s => int8Wrap (s - 128))
      let original_quantized_tensor : QTensor :=
        ⟨self.weight_sizes, corrected,
          Quantizer.perTensor (self.w_scales.getD 0 0)
            ((self.w_zero_points.getD 0 0 : Nat) : Int)⟩
      if original_quantized_tensor.quant.qscheme = QScheme.perTensorAffine then
        (Except.ok (original_quantized_tensor, self.bias_), self)
      else
        (Except.error UnpackError.torchCheckFailed, self)

/-! ## Backend C: `PackedLinearWeightFp16` (FBGEMM float16) -/

/-- State of `PackedLinearWeightFp16` as read by its `unpack()`: the
packed fp16 matrix handle `w` (recorded dimensions and, modelled from
the spec, its logical content `M : [nrows, ncols]` indexed row then
column) and the bias. -/
structure PackedLinearWeightFp16 where
  numRows : Nat
  numCols : Nat
  content : Nat → Nat → ℚ
  bias_ : Bias

/-- Modelled from the spec: `packed_weight_ptr->unpack(ptr, Transpose)`
(FBGEMM kernel-library code, not under `src/`) fills the
`[ncols, nrows]` buffer with the transpose of the logical `[nrows,
ncols]` packed matrix, so position (i, j) receives `M[j][i]`. -/
def fp16DecodeTranspose (content : Nat → Nat → ℚ) (ncols nrows : Nat) : List ℚ :=
  ((List.range ncols).map (fun i => (List.range nrows).map (fun j => content j i))).flatten

/-- Modelled from the spec: `Tensor::to(at::kFloat)` on a float16 tensor
is a pure precision widen, exact on every value; on the rational
representation it keeps each value and retags the dtype. -/
def toFloat32 (t : FTensor) : FTensor :=
  ⟨t.sizes, t.data, FDtype.f32⟩

/-- Translation of `PackedLinearWeightFp16::unpack()`
(LinearUnpackImpl.cpp lines 88-102).  Reads `nrows` and `ncols` from the
packed handle, allocates a `[ncols, nrows]` float16 tensor, lets the
decode routine fill it with the transpose, widens to float32, and
returns it with the bias.  No failure path; no field of `self` is
written. -/
def PackedLinearWeightFp16.unpack (self : PackedLinearWeightFp16) :
    Except UnpackError (FTensor × Bias) × PackedLinearWeightFp16 :=
  let nrows := self.numRows
  let ncols := self.numCols
  let unpacked_weight : FTensor :=
    ⟨[ncols, nrows], fp16DecodeTranspose self.content ncols nrows, FDtype.f16⟩
  (Except.ok (toFloat32 unpacked_weight, self.bias_), self)

/-! ## Backend D: `PackedLinearWeightsOnednn` (oneDNN passthrough) -/

/-- State of `PackedLinearWeightsOnednn` as read by its `unpack()`: the
retained original weight tensor and bias. -/
structure PackedLinearWeightsOnednn where
  orig_weight_ : QTensor
  orig_bias_ : Bias

/-- Translation of `PackedLinearWeightsOnednn::unpack()`
(LinearUnpackImpl.cpp lines 106-109): returns the retained pair
unchanged. -/
def PackedLinearWeightsOnednn.unpack (self : PackedLinearWeightsOnednn) :
    Except UnpackError (QTensor × Bias) × PackedLinearWeightsOnednn :=
  (Except.ok (self.orig_weight_, self.orig_bias_), self)

/-! ## Combined dispatch over the four backends -/

/-- A packed linear weight, dynamically typed by the backend that
produced it (the `LinearPackedParamsBase` hierarchy restricted to the
four variants implemented in this file). -/
inductive LinearPackedParams where
  | fbgemm (s : PackedLinearWeight)
  | qnnpack (s : PackedLinearWeightsQnnp)
  | fbgemmFp16 (s : PackedLinearWeightFp16)
  | onednn (s : PackedLinearWeightsOnednn)

/-- Result tensor of an unpack: quantized int8 (backends A, B, D) or
floating (backend C). -/
inductive UnpackedTensor where
  | q (t : QTensor)
  | f (t : FTensor)
deriving DecidableEq, Repr

/-- Recorded sizes of an unpack result tensor. -/
def UnpackedTensor.sizes : UnpackedTensor → List Nat
  | .q t => t.sizes
  | .f t => t.sizes

/-- Virtual dispatch of `unpack()` on a packed weight, as a state-passing
function: the call result together with the backend state after the
call. -/
def LinearPackedParams.unpack (p : LinearPackedParams) :
    Except UnpackError (UnpackedTensor × Bias) × LinearPackedParams :=
  match p with
  | .fbgemm s =>
      ((s.unpack.1).map (fun r => (UnpackedTensor.q r.1, r.2)), .fbgemm s.unpack.2)
  | .qnnpack s =>
      ((s.unpack.1).map (fun r => (UnpackedTensor.q r.1, r.2)), .qnnpack s.unpack.2)
  | .fbgemmFp16 s =>
      ((s.unpack.1).map (fun r => (UnpackedTensor.f r.1, r.2)), .fbgemmFp16 s.unpack.2)
  | .onednn s =>
      ((s.unpack.1).map (fun r => (UnpackedTensor.q r.1, r.2)), .onednn s.unpack.2)

/-- The packed buffer's own recorded dimensions, per backend: for A the
packed handle's column and row counts in [N, K] order; for B the stored
`weight_sizes`; for C [ncols, nrows]; for D the retained tensor's own
sizes (backend D records no separate dimensions). -/
def LinearPackedParams.recordedSizes : LinearPackedParams → List Nat
  | .fbgemm s => [s.numCols, s.numRows]
  | .qnnpack s => s.weight_sizes
  | .fbgemmFp16 s => [s.numCols, s.numRows]
  | .onednn s => s.orig_weight_.sizes

/-! ## Helper lemmas -/

theorem fbgemmWeight_unpack_snd (s : PackedLinearWeight) :
    s.unpack.2 = s := by
  unfold PackedLinearWeight.unpack
  dsimp only
  split <;> rfl

theorem qnnpWeight_unpack_snd (s : PackedLinearWeightsQnnp) :
    s.unpack.2 = s := by
  unfold PackedLinearWeightsQnnp.unpack
  dsimp only
  split
  · rfl
  · split <;> rfl

theorem fp16Weight_unpack_snd (s : PackedLinearWeightFp16) :
    s.unpack.2 = s := rfl

theorem onednnWeight_unpack_snd (s : PackedLinearWeightsOnednn) :
    s.unpack.2 = s := rfl

theorem params_unpack_snd (p : LinearPackedParams) :
    p.unpack.2 = p := by
  cases p <;>
    simp [LinearPackedParams.unpack, fbgemmWeight_unpack_snd,
      qnnpWeight_unpack_snd, fp16Weight_unpack_snd,
      onednnWeight_unpack_snd]

/-- Length of the flattening of `N` blocks of uniform length `K`. -/
theorem flatten_blocks_length {α : Type} (g : Nat → List α) (K : Nat)
    (hK : ∀ n, (g n).length = K) (N : Nat) :
    (((List.range N).map g).flatten).length = N * K := by
  rw [List.length_flatten, List.map_map]
  have h : (List.range N).map (List.length ∘ g) =
      (List.range N).map (fun _ => K) :=
    List.map_congr_left (fun a _ => hK a)
  rw [h, List.map_const', List.sum_replicate, List.length_range, smul_eq_mul]

/-- Indexing into the flattening of a list of `N` blocks of uniform
length `K`: flat position `i * K + j` lands at position `j` of block
`i`. -/
theorem getD_flatten_blocks {α : Type} (g : Nat → List α) (K : Nat)
    (hK : ∀ n, (g n).length = K) (N i j : Nat) (hi : i < N) (hj : j < K)
    (d : α) :
    (((List.range N).map g).flatten).getD (i * K + j) d = (g i).getD j d := by
  induction N with
  | zero => omega
  | succ n ih =>
      rw [List.range_succ, List.map_append, List.flatten_append]
      rcases Nat.lt_or_ge i n with hin | hin
      · rw [List.getD_append]
        · exact ih hin
        · rw [flatten_blocks_length g K hK n]
          calc i * K + j < i * K + K := by omega
          _ = (i + 1) * K := by ring
          _ ≤ n * K := Nat.mul_le_mul_right K (by omega)
      · have hieq : i = n := by omega
        subst hieq
        rw [List.getD_append_right]
        · rw [flatten_blocks_length g K hK i]
          simp [Nat.add_sub_cancel_left]
        · rw [flatten_blocks_length g K hK i]
          omega

/-- Subtracting 128 in int8 arithmetic from the int8 reinterpretation of
a byte `v < 256` yields exactly `v - 128`. -/
theorem int8_sub128_exact (v : Nat) (hv : v < 256) :
    int8Wrap (int8OfByte v - 128) = (v : Int) - 128 := by
  unfold int8Wrap int8OfByte
  split <;> omega

/-! ## Claim theorems -/

/-- C1: for backend A (`PackedLinearWeight::unpack`), if the stored
quantization scheme is neither per-tensor affine nor per-channel affine,
`unpack()` fails with a fatal error surfaced to the caller (the
undefined `weight_origin` tensor is accessed), with no silent default
scheme and no other behaviour on that input. -/
theorem fbgemm_unpack_malformed_scheme_errors (s : PackedLinearWeight)
    (h1 : s.q_scheme ≠ QScheme.perTensorAffine)
    (h2 : s.q_scheme ≠ QScheme.perChannelAffine) :
    s.unpack.1 = Except.error UnpackError.undefinedTensorAccess := by
  simp [PackedLinearWeight.unpack, h1, h2]

theorem fbgemm_unpack_malformed_scheme_errors_witness :
    (PackedLinearWeight.mk 3 2 (fun _ _ => 0) [(1 : ℚ) / 2] [0]
        QScheme.perTensorSymmetric none).unpack.1
      = Except.error UnpackError.undefinedTensorAccess :=
  fbgemm_unpack_malformed_scheme_errors _ (by decide) (by decide)

/-- C8: for every backend and every packed-weight instance, `unpack()`
leaves the stored fields untouched (the post state is the input state),
and a second call in succession returns a result identical to the
first. -/
theorem unpack_idempotent_no_mutation (p : LinearPackedParams) :
    p.unpack.2 = p ∧ (p.unpack.2).unpack.1 = p.unpack.1 := by
  refine ⟨params_unpack_snd p, ?_⟩
  rw [params_unpack_snd p]

/-- C6: backend D always, and backend B on the cached path, return the
retained original weight tensor and bias unchanged: exactly the stored
pair, with no reconstruction or modification. -/
theorem cached_paths_return_retained_pair :
    (∀ d : PackedLinearWeightsOnednn,
        d.unpack.1 = Except.ok (d.orig_weight_, d.orig_bias_)) ∧
    (∀ q : PackedLinearWeightsQnnp, ∀ t, q.orig_weight = some t →
        q.unpack.1 = Except.ok (t, q.bias_)) := by
  constructor
  · intro d
    rfl
  · intro q t ht
    simp [PackedLinearWeightsQnnp.unpack, ht]

theorem cached_paths_return_retained_pair_witness :
    (PackedLinearWeightsQnnp.mk
        (some ⟨[2, 2], [1, 2, 3, 4], Quantizer.perTensor 1 0⟩) none
        [2, 2] [1] [0] (fun _ => 0)).unpack.1
      = Except.ok ((⟨[2, 2], [1, 2, 3, 4], Quantizer.perTensor 1 0⟩ : QTensor), none) :=
  cached_paths_return_retained_pair.2 _ _ rfl

/-- The dense tensor built on the reconstructed path of
`PackedLinearWeightsQnnp.unpack` (abbreviation shared by the proofs
below). -/
def qnnpReconstructed (s : PackedLinearWeightsQnnp) : QTensor :=
  ⟨s.weight_sizes,
    ((qnnpackDecode s.packedByte s.weight_sizes.prod).map int8OfByte).map
      (fun x => int8Wrap (x - 128)),
    Quantizer.perTensor (s.w_scales.getD 0 0)
      ((s.w_zero_points.getD 0 0 : Nat) : Int)⟩

theorem qnnp_unpack_reconstructed (s : PackedLinearWeightsQnnp)
    (h : s.orig_weight = none) :
    s.unpack.1 = Except.ok (qnnpReconstructed s, s.bias_) := by
  simp [PackedLinearWeightsQnnp.unpack, h, Quantizer.qscheme, qnnpReconstructed]

/-- C9: on backend B's reconstructed path, the tensor built by
`_make_per_tensor_quantized_tensor` always carries the per-tensor-affine
scheme, so the `TORCH_CHECK` postcondition succeeds on every input and
its error branch is unreachable: the call returns ok, never the check's
failure. -/
theorem qnnp_postcondition_check_unreachable (s : PackedLinearWeightsQnnp)
    (h : s.orig_weight = none) :
    (∃ t b, s.unpack.1 = Except.ok (t, b) ∧
        t.quant.qscheme = QScheme.perTensorAffine) ∧
      s.unpack.1 ≠ Except.error UnpackError.torchCheckFailed := by
  constructor
  · exact ⟨qnnpReconstructed s, s.bias_, qnnp_unpack_reconstructed s h, rfl⟩
  · rw [qnnp_unpack_reconstructed s h]
    exact fun hcontra => Except.noConfusion hcontra

theorem qnnp_postcondition_check_unreachable_witness :
    (∃ t b, (PackedLinearWeightsQnnp.mk none none [1, 2] [1] [0]
          (fun _ => 128)).unpack.1 = Except.ok (t, b) ∧
        t.quant.qscheme = QScheme.perTensorAffine) ∧
      (PackedLinearWeightsQnnp.mk none none [1, 2] [1] [0]
          (fun _ => 128)).unpack.1
        ≠ Except.error UnpackError.torchCheckFailed :=
  qnnp_postcondition_check_unreachable _ rfl

/-- C10: on backend B's reconstructed path, the quantization metadata of
the returned tensor is exactly the scale at index 0 of `w_scales` and
the zero point at index 0 of `w_zero_points`, for every input whose
arrays have an index 0; entries at higher indices never influence the
metadata. -/
theorem qnnp_metadata_from_index_zero (s : PackedLinearWeightsQnnp)
    (h : s.orig_weight = none)
    (hs : 0 < s.w_scales.length) (hz : 0 < s.w_zero_points.length) :
    ∃ t b, s.unpack.1 = Except.ok (t, b) ∧
      t.quant = Quantizer.perTensor (s.w_scales.get ⟨0, hs⟩)
        ((s.w_zero_points.get ⟨0, hz⟩ : Nat) : Int) := by
  refine ⟨qnnpReconstructed s, s.bias_, qnnp_unpack_reconstructed s h, ?_⟩
  simp [qnnpReconstructed, List.getD_eq_getElem, hs, hz, List.get_eq_getElem]

theorem qnnp_metadata_from_index_zero_witness :
    ∃ t b, (PackedLinearWeightsQnnp.mk none none [1, 1] [3 / 2, 7] [5, 9]
          (fun _ => 0)).unpack.1 = Except.ok (t, b) ∧
      t.quant = Quantizer.perTensor ((3 : ℚ) / 2) 5 := by
  obtain ⟨t, b, h1, h2⟩ := qnnp_metadata_from_index_zero
    (PackedLinearWeightsQnnp.mk none none [1, 1] [3 / 2, 7] [5, 9]
      (fun _ => 0)) rfl (by decide) (by decide)
  exact ⟨t, b, h1, by rw [h2]; norm_num⟩

/-- C2 counterexample: a backend-B state on the reconstructed path
storing two scale/zero-point pairs (a per-channel request), on which
`unpack()` succeeds with per-tensor metadata taken from index 0 instead
of failing with an unsupported-scheme error. -/
theorem qnnp_per_channel_no_failure_counterexample :
    (PackedLinearWeightsQnnp.mk none none [2, 1] [1, 2] [3, 4]
        (fun _ => 128)).unpack.1
      = Except.ok ((⟨[2, 1], [0, 0], Quantizer.perTensor 1 3⟩ : QTensor), none) := by
  rfl

/-- C2 amended: on backend B's reconstructed path, when more than one
scale/zero-point pair is stored (per-channel requested), `unpack()` does
not fail: it silently downgrades the weight to per-tensor quantization
built from the pair at index 0. -/
theorem qnnp_per_channel_silent_downgrade (s : PackedLinearWeightsQnnp)
    (h : s.orig_weight = none)
    (hs : 1 < s.w_scales.length) (hz : 1 < s.w_zero_points.length) :
    ∃ t b, s.unpack.1 = Except.ok (t, b) ∧
      t.quant = Quantizer.perTensor (s.w_scales.getD 0 0)
        ((s.w_zero_points.getD 0 0 : Nat) : Int) :=
  ⟨qnnpReconstructed s, s.bias_, qnnp_unpack_reconstructed s h, rfl⟩

theorem qnnp_per_channel_silent_downgrade_witness :
    ∃ t b, (PackedLinearWeightsQnnp.mk none none [2, 1] [2, 3] [4, 5]
          (fun _ => 129)).unpack.1 = Except.ok (t, b) ∧
      t.quant = Quantizer.perTensor 2 4 := by
  obtain ⟨t, b, h1, h2⟩ := qnnp_per_channel_silent_downgrade
    (PackedLinearWeightsQnnp.mk none none [2, 1] [2, 3] [4, 5]
      (fun _ => 129)) rfl (by decide) (by decide)
  exact ⟨t, b, h1, h2⟩

/-- C4: on backend B's reconstructed path, for every packed byte value
`v` in [0, 255] written by the decode routine, the corresponding element
of the returned int8 tensor equals `v - 128` exactly, for all positions. -/
theorem qnnp_offset_correction_exact (s : PackedLinearWeightsQnnp)
    (h : s.orig_weight = none)
    (hbytes : ∀ i, i < s.weight_sizes.prod → s.packedByte i < 256) :
    ∃ t b, s.unpack.1 = Except.ok (t, b) ∧
      t.data = (List.range s.weight_sizes.prod).map
        (fun i => (s.packedByte i : Int) - 128) := by
  refine ⟨qnnpReconstructed s, s.bias_, qnnp_unpack_reconstructed s h, ?_⟩
  unfold qnnpReconstructed qnnpackDecode
  dsimp only
  rw [List.map_map, List.map_map]
  apply List.map_congr_left
  intro i hi
  simp only [Function.comp]
  exact int8_sub128_exact (s.packedByte i) (hbytes i (List.mem_range.mp hi))

theorem qnnp_offset_correction_exact_witness :
    ∃ t b, (PackedLinearWeightsQnnp.mk none none [1, 3] [1] [8]
          (fun i => 128 + i)).unpack.1 = Except.ok (t, b) ∧
      t.data = [0, 1, 2] := by
  obtain ⟨t, b, h1, h2⟩ := qnnp_offset_correction_exact
    (PackedLinearWeightsQnnp.mk none none [1, 3] [1] [8] (fun i => 128 + i))
    rfl
    (fun i hi => by
      have h3 : ([1, 3] : List Nat).prod = 3 := rfl
      rw [h3] at hi
      show 128 + i < 256
      omega)
  refine ⟨t, b, h1, ?_⟩
  rw [h2]
  decide

/-- C7: for backend A with the per-channel affine scheme, the returned
tensor's metadata has scales and zero-points arrays of equal length,
that length equals N = numCols (under the pack-time input contract that
the stored arrays have length N), and the quantization axis is 0. -/
theorem fbgemm_per_channel_metadata_invariant (s : PackedLinearWeight)
    (hscheme : s.q_scheme = QScheme.perChannelAffine)
    (hs : s.w_scale.length = s.numCols)
    (hz : s.w_zp.length = s.numCols) :
    ∃ t b, s.unpack.1 = Except.ok (t, b) ∧
      ∃ sc zp, t.quant = Quantizer.perChannel sc zp 0 ∧
        sc.length = zp.length ∧ sc.length = s.numCols := by
  refine ⟨⟨[s.numCols, s.numRows], fbgemmDecode s.content s.numCols s.numRows,
      Quantizer.perChannel s.w_scale s.w_zp 0⟩, s.bias_, ?_, ?_⟩
  · simp [PackedLinearWeight.unpack, hscheme]
  · exact ⟨s.w_scale, s.w_zp, rfl, by omega, hs⟩

theorem fbgemm_per_channel_metadata_invariant_witness :
    ∃ t b, (PackedLinearWeight.mk 3 2 (fun _ _ => 1) [1, 2] [0, 5]
          QScheme.perChannelAffine (some [1, 1])).unpack.1
        = Except.ok (t, b) ∧
      ∃ sc zp, t.quant = Quantizer.perChannel sc zp 0 ∧
        sc.length = zp.length ∧ sc.length = 2 :=
  fbgemm_per_channel_metadata_invariant _ rfl (by decide) (by decide)

theorem fbgemm_unpack_ok_sizes (s : PackedLinearWeight)
    (t : QTensor) (b : Bias) (h : s.unpack.1 = Except.ok (t, b)) :
    t.sizes = [s.numCols, s.numRows] := by
  unfold PackedLinearWeight.unpack at h
  dsimp only at h
  split at h
  · simp at h
  · simp at h
    rw [← h.1]

theorem qnnp_unpack_ok_sizes (s : PackedLinearWeightsQnnp)
    (t : QTensor) (b : Bias)
    (hc : ∀ u, s.orig_weight = some u → u.sizes = s.weight_sizes)
    (h : s.unpack.1 = Except.ok (t, b)) :
    t.sizes = s.weight_sizes := by
  cases ho : s.orig_weight with
  | some u =>
      have hcase : s.unpack.1 = Except.ok (u, s.bias_) := by
        simp [PackedLinearWeightsQnnp.unpack, ho]
      rw [hcase] at h
      simp at h
      rw [← h.1]
      exact hc u ho
  | none =>
      rw [qnnp_unpack_reconstructed s ho] at h
      simp at h
      rw [← h.1]
      rfl

theorem PackedLinearWeightFp16.unpack_fst (s : PackedLinearWeightFp16) :
    s.unpack.1 = Except.ok
      ((⟨[s.numCols, s.numRows],
          fp16DecodeTranspose s.content s.numCols s.numRows,
          FDtype.f32⟩ : FTensor), s.bias_) := rfl

/-- C3: for every backend, the tensor returned by `unpack()` has sizes
equal to the packed buffer's own recorded dimensions (backend A:
[numCols, numRows]; backend B: the stored `weight_sizes`, with the
pack-time input contract that a retained original tensor has those
sizes; backend C: [numCols, numRows]; backend D: the retained tensor's
own sizes), regardless of internal physical layout. -/
theorem unpack_shape_invariant (p : LinearPackedParams)
    (hcache : ∀ s, p = LinearPackedParams.qnnpack s →
      ∀ u, s.orig_weight = some u → u.sizes = s.weight_sizes)
    (r : UnpackedTensor) (b : Bias)
    (hok : p.unpack.1 = Except.ok (r, b)) :
    r.sizes = p.recordedSizes := by
  cases p with
  | fbgemm s =>
      simp only [LinearPackedParams.unpack] at hok
      cases hs : s.unpack.1 with
      | error e =>
          rw [hs] at hok
          simp [Except.map] at hok
      | ok v =>
          rw [hs] at hok
          simp [Except.map] at hok
          rw [← hok.1]
          exact fbgemm_unpack_ok_sizes s v.1 v.2 (by rw [hs])
  | qnnpack s =>
      simp only [LinearPackedParams.unpack] at hok
      cases hs : s.unpack.1 with
      | error e =>
          rw [hs] at hok
          simp [Except.map] at hok
      | ok v =>
          rw [hs] at hok
          simp [Except.map] at hok
          rw [← hok.1]
          exact qnnp_unpack_ok_sizes s v.1 v.2
            (hcache s rfl) (by rw [hs])
  | fbgemmFp16 s =>
      simp only [LinearPackedParams.unpack] at hok
      rw [PackedLinearWeightFp16.unpack_fst s] at hok
      simp [Except.map] at hok
      rw [← hok.1]
      rfl
  | onednn s =>
      simp [LinearPackedParams.unpack, PackedLinearWeightsOnednn.unpack,
        Except.map] at hok
      rw [← hok.1]
      rfl

theorem unpack_shape_invariant_witness :
    (UnpackedTensor.f ⟨[3, 2], fp16DecodeTranspose (fun _ _ => 1) 3 2,
        FDtype.f32⟩).sizes
      = (LinearPackedParams.fbgemmFp16
          (PackedLinearWeightFp16.mk 2 3 (fun _ _ => 1) none)).recordedSizes :=
  unpack_shape_invariant _ (fun _ h => LinearPackedParams.noConfusion h)
    _ _ rfl

/-- C5: for backend C, given a packed buffer logically representing a
float16 matrix `M` of shape [K, N] = [numRows, numCols], `unpack()`
returns a float32 tensor of shape [N, K] whose element at position
(i, j) equals the exact float32 widening of `M[j][i]` (the identity on
the represented value), with no quantization metadata and no failure
path. -/
theorem fp16_unpack_transpose_exact (s : PackedLinearWeightFp16)
    (i j : Nat) (hi : i < s.numCols) (hj : j < s.numRows) :
    ∃ t b, s.unpack.1 = Except.ok (t, b) ∧ t.dtype = FDtype.f32 ∧
      t.sizes = [s.numCols, s.numRows] ∧ t.entry i j = s.content j i := by
  refine ⟨_, s.bias_, PackedLinearWeightFp16.unpack_fst s, rfl, rfl, ?_⟩
  have hlen : ∀ n,
      ((List.range s.numRows).map (fun j0 => s.content j0 n)).length
        = s.numRows := by
    simp
  unfold FTensor.entry
  dsimp only
  have h2 : ([s.numCols, s.numRows] : List Nat).getD 1 0 = s.numRows := rfl
  rw [h2]
  unfold fp16DecodeTranspose
  rw [getD_flatten_blocks _ s.numRows hlen s.numCols i j hi hj 0]
  rw [List.getD_eq_getElem _ _ (by simpa using hj)]
  simp

theorem fp16_unpack_transpose_exact_witness :
    ∃ t b, (PackedLinearWeightFp16.mk 2 3
          (fun j i =>
            (([[1, 2, 3], [4, 5, 6]] : List (List ℚ)).getD j []).getD i 0)
          none).unpack.1 = Except.ok (t, b) ∧
      t.dtype = FDtype.f32 ∧ t.sizes = [3, 2] ∧ t.entry 2 1 = 6 := by
  obtain ⟨t, b, h1, h2, h3, h4⟩ := fp16_unpack_transpose_exact
    (PackedLinearWeightFp16.mk 2 3
      (fun j i =>
        (([[1, 2, 3], [4, 5, 6]] : List (List ℚ)).getD j []).getD i 0)
      none)
    2 1 (by decide) (by decide)
  exact ⟨t, b, h1, h2, h3, h4⟩
